import Mathlib

/-!
Verification development for the quota-aware request scheduler and
retry/fallback orchestrator of the TheCatalyst repository.

The embedding follows `src/backend/rate_limiter.py` (class `RateLimiter`,
dataclass `_ModelState`) and `src/backend/catalyst_ai.py`
(`_make_api_call_with_retry`, `_calculate_retry_delay`,
`_is_retryable_error`, `_parse_quota_error`).

Modelling conventions:
- timestamps (values of `time.monotonic()`) are rationals;
- token counts and limits are integers / naturals;
- a Python `while True:` loop body guarded by the per-model lock is embedded
  as a single-iteration step function returning the mutated state together
  with a completion flag (`true` when the source `return`s, `false` when it
  falls through to `await asyncio.sleep(...)` and loops again);
- the random jitter sample `random.uniform(-JITTER_RANGE, JITTER_RANGE)` is
  an explicit parameter `u`.
-/

namespace Catalyst

/-- Window constant `_TOKEN_WINDOW_SECONDS = 60.0` from `rate_limiter.py`. -/
def TOKEN_WINDOW_SECONDS : ℚ := 60

/-- Window constant `_DAY_WINDOW_SECONDS = 86_400.0` from `rate_limiter.py`. -/
def DAY_WINDOW_SECONDS : ℚ := 86400

/-- Per-model quota configuration: one entry of `GEMINI_RATE_LIMITS`.
`limits.get("rpm", 0) or 0` collapses a missing or zero entry to `0`,
meaning "unlimited" for that dimension. -/
structure Limits where
  rpm : Nat
  rpd : Nat
  tpm : Nat
deriving DecidableEq

/-- The `_ModelState` dataclass of `rate_limiter.py`: deques are embedded as
lists whose head is the oldest element (the `popleft` end). -/
structure ModelState where
  minute_requests : List ℚ
  day_requests : List ℚ
  token_events : List (ℚ × Int)
  token_sum : Int
  placeholder_tokens : List Int
  pending_token_sum : Int
deriving DecidableEq

/-- The freshly created `_ModelState()` (all deques empty, sums zero). -/
def emptyModelState : ModelState :=
  { minute_requests := []
    day_requests := []
    token_events := []
    token_sum := 0
    placeholder_tokens := []
    pending_token_sum := 0 }

/-- One `while deque and now - deque[0] >= window: popleft()` loop from
`RateLimiter._prune_requests`. -/
def pruneWindow (window now : ℚ) : List ℚ → List ℚ
  | [] => []
  | t :: ts => if now - t ≥ window then pruneWindow window now ts else t :: ts

/-- `RateLimiter._prune_requests`. -/
def pruneRequests (s : ModelState) (now : ℚ) : ModelState :=
  { s with
    minute_requests := pruneWindow TOKEN_WINDOW_SECONDS now s.minute_requests
    day_requests := pruneWindow DAY_WINDOW_SECONDS now s.day_requests }

/-- The loop body of `RateLimiter._prune_tokens`: pops expired events off the
front and updates the running sum with `max(0, token_sum - count)`. -/
def pruneTokensAux (now : ℚ) : List (ℚ × Int) → Int → List (ℚ × Int) × Int
  | [], sum => ([], sum)
  | (t, c) :: es, sum =>
      if now - t ≥ TOKEN_WINDOW_SECONDS then pruneTokensAux now es (max 0 (sum - c))
      else ((t, c) :: es, sum)

/-- `RateLimiter._prune_tokens`. -/
def pruneTokens (s : ModelState) (now : ℚ) : ModelState :=
  { s with
    token_events := (pruneTokensAux now s.token_events s.token_sum).1
    token_sum := (pruneTokensAux now s.token_events s.token_sum).2 }

/-- First `max` update of `RateLimiter._compute_wait_time`: the
requests-per-minute candidate applied to the initial `wait_time = 0.0`. -/
def wtAfterRpm (s : ModelState) (now : ℚ) (l : Limits) : ℚ :=
  if l.rpm ≠ 0 ∧ l.rpm ≤ s.minute_requests.length then
    max 0 (s.minute_requests.headD 0 + TOKEN_WINDOW_SECONDS - now)
  else 0

/-- Second `max` update of `RateLimiter._compute_wait_time`: the
requests-per-day candidate applied to the accumulator. -/
def wtAfterRpd (s : ModelState) (now : ℚ) (l : Limits) (acc : ℚ) : ℚ :=
  if l.rpd ≠ 0 ∧ l.rpd ≤ s.day_requests.length then
    max acc (s.day_requests.headD 0 + DAY_WINDOW_SECONDS - now)
  else acc

/-- Third `max` update of `RateLimiter._compute_wait_time`: the
tokens-per-minute candidate applied to the accumulator. -/
def wtAfterTpm (s : ModelState) (now : ℚ) (l : Limits) (reserve : Int) (acc : ℚ) : ℚ :=
  if l.tpm ≠ 0 ∧ (l.tpm : Int) < s.token_sum + s.pending_token_sum + reserve then
    match s.token_events with
    | [] => max acc TOKEN_WINDOW_SECONDS
    | e :: _ => max acc (e.1 + TOKEN_WINDOW_SECONDS - now)
  else acc

/-- `RateLimiter._compute_wait_time`: maximum of the three per-dimension
candidate waits, starting from `0.0`. -/
def computeWaitTime (s : ModelState) (now : ℚ) (l : Limits) (reserve : Int) : ℚ :=
  wtAfterTpm s now l reserve (wtAfterRpd s now l (wtAfterRpm s now l))

/-- The state mutation performed under the lock by `RateLimiter.get_wait_time`
for a known model: prune both request windows, and prune token events only
when a `tpm` limit is configured (`if limits.get("tpm")`). -/
def queryPrune (l : Limits) (s : ModelState) (now : ℚ) : ModelState :=
  if l.tpm ≠ 0 then pruneTokens (pruneRequests s now) now else pruneRequests s now

/-- `RateLimiter.get_wait_time`: returns `0.0` for a model without configured
limits, otherwise the computed wait together with the pruned state. -/
def getWaitTime (lim : Option Limits) (s : ModelState) (now : ℚ) (est : Int) :
    ℚ × ModelState :=
  match lim with
  | none => (0, s)
  | some l => (computeWaitTime (queryPrune l s now) now l (max 0 est), queryPrune l s now)

/-- The mutation performed by `RateLimiter.wait_for_request` when it admits a
request: append `now` to both request windows and, when the reserve is
nonzero (`if reserve:`), append it to the placeholders and the pending sum. -/
def admitState (s1 : ModelState) (now : ℚ) (reserve : Int) : ModelState :=
  if reserve ≠ 0 then
    { s1 with
      minute_requests := s1.minute_requests ++ [now]
      day_requests := s1.day_requests ++ [now]
      placeholder_tokens := s1.placeholder_tokens ++ [reserve]
      pending_token_sum := s1.pending_token_sum + reserve }
  else
    { s1 with
      minute_requests := s1.minute_requests ++ [now]
      day_requests := s1.day_requests ++ [now] }

/-- One iteration of the `while True:` loop of `RateLimiter.wait_for_request`
for a known model. The boolean is `true` when the iteration admits the request
(`wait_time <= 0`, timestamps appended, reservation placed) and `false` when
the source would sleep and iterate again. -/
def waitForRequestIter (l : Limits) (s : ModelState) (now : ℚ) (est : Int) :
    ModelState × Bool :=
  if computeWaitTime (pruneTokens (pruneRequests s now) now) now l (max 0 est) ≤ 0 then
    (admitState (pruneTokens (pruneRequests s now) now) now (max 0 est), true)
  else (pruneTokens (pruneRequests s now) now, false)

/-- `RateLimiter.wait_for_request` entry: returns immediately for an unknown
model, otherwise runs one loop iteration. -/
def waitForRequestStep (lim : Option Limits) (s : ModelState) (now : ℚ) (est : Int) :
    ModelState × Bool :=
  match lim with
  | none => (s, true)
  | some l => waitForRequestIter l s now est

/-- The pop of the oldest placeholder in `RateLimiter.record_usage`
(`if state.placeholder_tokens: reserved = popleft(); pending = max(0, pending -
reserved)`); returns the popped value (`0` when there was none) and the new
state. -/
def popPlaceholder (s : ModelState) : Int × ModelState :=
  match s.placeholder_tokens with
  | [] => (0, s)
  | r :: rest =>
      (r, { s with
            placeholder_tokens := rest
            pending_token_sum := max 0 (s.pending_token_sum - r) })

/-- The commit branch of `RateLimiter.record_usage`: append the token event
when the clamped count is nonzero (`if tokens:`). -/
def commitState (s : ModelState) (now : ℚ) (tokens : Int) : ModelState :=
  if tokens ≠ 0 then
    { s with
      token_events := s.token_events ++ [(now, tokens)]
      token_sum := s.token_sum + tokens }
  else s

/-- The overflow branch of `RateLimiter.record_usage`: re-insert the popped
placeholder at the front when it is nonzero (`if reserved:`). -/
def reinsertState (s : ModelState) (reserved : Int) : ModelState :=
  if reserved ≠ 0 then
    { s with
      placeholder_tokens := reserved :: s.placeholder_tokens
      pending_token_sum := s.pending_token_sum + reserved }
  else s

/-- One iteration of the `while True:` loop of `RateLimiter.record_usage` for
a known model: prune, pop the oldest placeholder (if any), then either commit
the actual usage (flag `true`) or re-insert the popped placeholder and go back
to waiting (flag `false`). -/
def recordUsageIter (l : Limits) (s : ModelState) (now : ℚ) (tokensUsed : Int) :
    ModelState × Bool :=
  if l.tpm ≠ 0 ∧
      (l.tpm : Int) < (popPlaceholder (pruneTokens s now)).2.token_sum + max 0 tokensUsed then
    (reinsertState (popPlaceholder (pruneTokens s now)).2
       (popPlaceholder (pruneTokens s now)).1,
     false)
  else
    (commitState (popPlaceholder (pruneTokens s now)).2 now (max 0 tokensUsed), true)

/-- Tracker operations on one model, each stamped with the `time.monotonic()`
value observed inside the lock: `reserve` is an admitted-or-sleeping
`wait_for_request` iteration, `usage` a `record_usage` iteration (commit when
the token argument is positive, release when it is zero), `query` a
`get_wait_time` call. -/
inductive TrackerOp where
  | reserve (now : ℚ) (est : Int)
  | usage (now : ℚ) (tok : Int)
  | query (now : ℚ) (est : Int)
deriving DecidableEq

/-- Timestamp of a tracker operation. -/
def opTime : TrackerOp → ℚ
  | .reserve now _ => now
  | .usage now _ => now
  | .query now _ => now

/-- State transition of one tracker operation, with its completion flag
(`query` always completes). -/
def applyOp (l : Limits) (s : ModelState) : TrackerOp → ModelState × Bool
  | .reserve now est => waitForRequestIter l s now est
  | .usage now tok => recordUsageIter l s now tok
  | .query now _ => (queryPrune l s now, true)

/-- Run a sequence of tracker operations. -/
def runOps (l : Limits) (s : ModelState) : List TrackerOp → ModelState
  | [] => s
  | op :: ops => runOps l (applyOp l s op).1 ops

/-- Every operation of the sequence completes (no iteration sleeps). -/
def completes (l : Limits) (s : ModelState) : List TrackerOp → Bool
  | [] => true
  | op :: ops => (applyOp l s op).2 && completes l (applyOp l s op).1 ops

/-- Sum of the token counts of a list of token events. -/
def sumCounts (es : List (ℚ × Int)) : Int := (es.map Prod.snd).sum

/-- Ledger of committed token events: the `usage` operations whose clamped
token argument is positive, paired with their timestamps. -/
def specCommits : List TrackerOp → List (ℚ × Int)
  | [] => []
  | TrackerOp.usage now tok :: ops =>
      if 0 < max 0 tok then (now, max 0 tok) :: specCommits ops else specCommits ops
  | _ :: ops => specCommits ops

/-- FIFO evolution of the outstanding-reservation queue: a positive `reserve`
appends its clamped estimate, a `usage` consumes the oldest entry, a `query`
leaves the queue unchanged. -/
def stepQueue (q : List Int) : TrackerOp → List Int
  | .reserve _ est => if max 0 est ≠ 0 then q ++ [max 0 est] else q
  | .usage _ _ => q.tail
  | .query _ _ => q

/-- Reservations still outstanding (reserved, neither committed nor released)
after a sequence of operations. -/
def specOutstanding (ops : List TrackerOp) : List Int := ops.foldl stepQueue []

/-- Timestamps of the operation sequence are nondecreasing. -/
def timesMono (ops : List TrackerOp) : Prop :=
  List.Chain' (fun a b => a ≤ b) (ops.map opTime)

/-- Timestamp of the last operation (default `d` for the empty sequence). -/
def lastTime (d : ℚ) (ops : List TrackerOp) : ℚ := (ops.map opTime).getLastD d

/-- Whether a tracker operation is a `get_wait_time` query. -/
def isQuery : TrackerOp → Bool
  | .query _ _ => true
  | _ => false

/-- The sequence contains no `query` operation. -/
def noQuery (ops : List TrackerOp) : Prop := ∀ op ∈ ops, isQuery op = false

/-! Embedding of the orchestrator in `src/backend/catalyst_ai.py`. -/

/-- Retry configuration constant `MAX_RETRIES = 4`. -/
def MAX_RETRIES : Nat := 4

/-- Retry configuration constant `BASE_DELAY = 1.0`. -/
def BASE_DELAY : ℚ := 1

/-- Retry configuration constant `MAX_DELAY = 60.0`. -/
def MAX_DELAY : ℚ := 60

/-- Retry configuration constant `JITTER_RANGE = 0.1`. -/
def JITTER_RANGE : ℚ := 1 / 10

/-- `_calculate_retry_delay(attempt)`, with the sample of
`random.uniform(-JITTER_RANGE, JITTER_RANGE)` made explicit as `u`. -/
def calculateRetryDelay (attempt : Nat) (u : ℚ) : ℚ :=
  let delay := min (BASE_DELAY * 2 ^ attempt) MAX_DELAY
  max (1 / 10) (delay + u * delay)

/-- Model choice on a retry attempt (`attempt > 0 and fallback_model` branch of
`_make_api_call_with_retry`): the source keeps the primary when
`wait_primary > 0` is false, and otherwise assigns the fallback in both arms of
the inner `if wait_fallback == 0 or wait_fallback <= wait_primary` test. -/
def selectRetryModel (primary fallback : String) (waitPrimary waitFallback : ℚ) :
    String :=
  if 0 < waitPrimary then
    if waitFallback = 0 ∨ waitFallback ≤ waitPrimary then fallback else fallback
  else primary

/-- Model choice on the first attempt (`attempt == 0 and fallback_model` branch
of `_make_api_call_with_retry`): switch to the fallback exactly when the
primary is blocked and the fallback is immediately available. -/
def selectFirstModel (primary : String) (fallback : Option String)
    (waitPrimary waitFallback : ℚ) : String :=
  match fallback with
  | none => primary
  | some fb =>
      if 0 < waitPrimary then (if waitFallback = 0 then fb else primary) else primary

/-- Outcome of invoking `operation(model)` on one attempt. `quota` stands for a
`genai_errors.ClientError` that `_parse_quota_error` recognises as a 429
without a retry-after hint (a hinted 429 makes the handler call the
nonexistent `RateLimiter.register_backoff`, raising `AttributeError`, so that
path never reaches the retry bookkeeping). `transient` is a non-429 error
matched by `_is_retryable_error`; `fatal` is any other error. -/
inductive AttemptOutcome where
  | success (resp : Nat)
  | quota (info : Nat)
  | transient (e : Nat)
  | fatal (e : Nat)
deriving DecidableEq

/-- The value of the `last_error` variable: the `HTTPException` built from a
quota error, or a plain (non-`HTTPException`) provider error. -/
inductive RecordedError where
  | quotaHttp (info : Nat)
  | plain (e : Nat)
deriving DecidableEq

/-- Result of `_make_api_call_with_retry`: a response, an error raised as-is,
or the final `HTTPException(503, "AI service temporarily unavailable after N
attempts ...")` wrapping the last recorded error. -/
inductive ExecResult where
  | ok (resp : Nat)
  | raised (err : RecordedError)
  | unavailable503 (lastErr : Option RecordedError)
deriving DecidableEq

/-- The `for attempt in range(MAX_RETRIES)` loop of
`_make_api_call_with_retry`, with `fuel` iterations remaining, returning the
result, the number of attempts performed, and the list of backoff sleeps.
When the fuel runs out the post-loop code raises `last_error` if it is an
`HTTPException`, else wraps it in a 503. -/
def attemptGo (outcomes : Nat → AttemptOutcome) (u : Nat → ℚ) :
    Nat → Nat → Option RecordedError → ExecResult × Nat × List ℚ
  | _, 0, lastError =>
      match lastError with
      | some (RecordedError.quotaHttp i) =>
          (ExecResult.raised (RecordedError.quotaHttp i), 0, [])
      | le => (ExecResult.unavailable503 le, 0, [])
  | attempt, fuel + 1, _ =>
      match outcomes attempt with
      | .success resp => (ExecResult.ok resp, 1, [])
      | .quota i =>
          if attempt < MAX_RETRIES - 1 then
            let r := attemptGo outcomes u (attempt + 1) fuel
              (some (RecordedError.quotaHttp i))
            (r.1, r.2.1 + 1, r.2.2)
          else (ExecResult.raised (RecordedError.quotaHttp i), 1, [])
      | .transient e =>
          if attempt < MAX_RETRIES - 1 then
            let d := calculateRetryDelay attempt (u attempt)
            let r := attemptGo outcomes u (attempt + 1) fuel
              (some (RecordedError.plain e))
            (r.1, r.2.1 + 1, d :: r.2.2)
          else
            let r := attemptGo outcomes u (attempt + 1) fuel
              (some (RecordedError.plain e))
            (r.1, r.2.1 + 1, r.2.2)
      | .fatal e => (ExecResult.raised (RecordedError.plain e), 1, [])

/-- Full attempt loop from a fresh call. -/
def runAttempts (outcomes : Nat → AttemptOutcome) (u : Nat → ℚ) :
    ExecResult × Nat × List ℚ :=
  attemptGo outcomes u 0 MAX_RETRIES none

/-- Statements of the `except Exception as exc:` handler of
`_make_api_call_with_retry`, in source order. -/
inductive FailAction where
  | parseQuota
  | release
  | registerBackoff
  | checkRetryable
deriving DecidableEq

/-- Trace of the failure handler: `_parse_quota_error` runs first (only for a
`ClientError`), then the unconditional `record_usage(current_model, 0)`
release, then `register_backoff` when a hinted quota error was parsed, and
`_is_retryable_error` only when no quota error was parsed. -/
def failureHandlerTrace (isClientError parsesAsQuota hasRetryAfterHint : Bool) :
    List FailAction :=
  let quotaParsed := isClientError && parsesAsQuota
  (if isClientError then [FailAction.parseQuota] else [])
    ++ [FailAction.release]
    ++ (if quotaParsed && hasRetryAfterHint then [FailAction.registerBackoff] else [])
    ++ (if quotaParsed then [] else [FailAction.checkRetryable])

/-! Helper lemmas. -/

theorem pruneTokens_minute (s : ModelState) (now : ℚ) :
    (pruneTokens s now).minute_requests = s.minute_requests := rfl

theorem pruneTokens_day (s : ModelState) (now : ℚ) :
    (pruneTokens s now).day_requests = s.day_requests := rfl

theorem pruneTokens_placeholder (s : ModelState) (now : ℚ) :
    (pruneTokens s now).placeholder_tokens = s.placeholder_tokens := rfl

theorem pruneTokens_pending (s : ModelState) (now : ℚ) :
    (pruneTokens s now).pending_token_sum = s.pending_token_sum := rfl

theorem wtAfterRpm_nonneg (s : ModelState) (now : ℚ) (l : Limits) :
    0 ≤ wtAfterRpm s now l := by
  unfold wtAfterRpm
  split
  · exact le_max_left _ _
  · exact le_rfl

theorem le_wtAfterRpd (s : ModelState) (now : ℚ) (l : Limits) (acc : ℚ) :
    acc ≤ wtAfterRpd s now l acc := by
  unfold wtAfterRpd
  split
  · exact le_max_left _ _
  · exact le_rfl

theorem le_wtAfterTpm (s : ModelState) (now : ℚ) (l : Limits) (reserve : Int) (acc : ℚ) :
    acc ≤ wtAfterTpm s now l reserve acc := by
  unfold wtAfterTpm
  split
  · cases s.token_events with
    | nil => exact le_max_left _ _
    | cons e es => exact le_max_left _ _
  · exact le_rfl

theorem computeWaitTime_nonneg (s : ModelState) (now : ℚ) (l : Limits) (reserve : Int) :
    0 ≤ computeWaitTime s now l reserve :=
  le_trans (le_trans (wtAfterRpm_nonneg s now l) (le_wtAfterRpd s now l _))
    (le_wtAfterTpm s now l reserve _)

theorem computeWaitTime_tpm_zero (s : ModelState) (now : ℚ) (l : Limits)
    (reserve : Int) (htpm : l.tpm = 0) :
    computeWaitTime (pruneTokens s now) now l reserve = computeWaitTime s now l reserve := by
  unfold computeWaitTime wtAfterRpm wtAfterRpd wtAfterTpm
  rw [pruneTokens_minute, pruneTokens_day]
  simp [htpm]

theorem waitForRequestIter_snd (l : Limits) (s : ModelState) (now : ℚ) (est : Int) :
    (waitForRequestIter l s now est).2 = true ↔
      computeWaitTime (pruneTokens (pruneRequests s now) now) now l (max 0 est) ≤ 0 := by
  unfold waitForRequestIter
  split
  next h => simp [h]
  next h => simp [h]

theorem getWaitTime_fst (l : Limits) (s : ModelState) (now : ℚ) (est : Int) :
    (getWaitTime (some l) s now est).1
      = computeWaitTime (pruneTokens (pruneRequests s now) now) now l (max 0 est) := by
  by_cases htpm : l.tpm = 0
  · simp only [getWaitTime, queryPrune, htpm]
    simp [computeWaitTime_tpm_zero _ _ _ _ htpm]
  · simp [getWaitTime, queryPrune, htpm]

/-- Claim C3: for every model and estimated token count, `get_wait_time`
returns `0` exactly when an immediate `wait_for_request` issued from the same
state at the same instant would be admitted without sleeping. -/
theorem C3_waitTime_zero_iff_reserve_admits (lim : Option Limits) (s : ModelState)
    (now : ℚ) (est : Int) :
    (getWaitTime lim s now est).1 = 0 ↔ (waitForRequestStep lim s now est).2 = true := by
  cases lim with
  | none => simp [getWaitTime, waitForRequestStep]
  | some l =>
    have hnn := computeWaitTime_nonneg (pruneTokens (pruneRequests s now) now) now l (max 0 est)
    rw [show waitForRequestStep (some l) s now est = waitForRequestIter l s now est from rfl,
      waitForRequestIter_snd, getWaitTime_fst]
    constructor
    · intro h
      rw [h]
    · intro h
      exact le_antisymm h hnn

/-- Claim C1 (code_bug evidence): `RateLimiter` has no backoff state at all.
With every sliding-window counter empty, `get_wait_time` returns `0` no matter
which limits are configured, so nothing in the tracker can make the next
`waitTime` call return at least a previously hinted retry-after value; indeed
`_make_api_call_with_retry` calls `rate_limiter.register_backoff`, a method
that does not exist on `RateLimiter`, so the hinted quota-error path raises
`AttributeError` instead of registering a backoff. -/
theorem C1_no_backoff_state (l : Limits) (now : ℚ) :
    (getWaitTime (some l) emptyModelState now 0).1 = 0 := by
  rw [getWaitTime_fst]
  simp [emptyModelState, pruneRequests, pruneWindow, pruneTokens, pruneTokensAux,
    computeWaitTime, wtAfterRpm, wtAfterRpd, wtAfterTpm]

/-- Claim C4 (counterexample): on a retry attempt with both wait times equal to
zero — a tie in which the claim requires the fallback — the source keeps the
primary model, because the fallback branch is only entered when
`wait_primary > 0`. -/
theorem C4_counterexample :
    selectRetryModel "gemini-2.5-pro" "gemini-2.5-flash" 0 0 = "gemini-2.5-pro" ∧
      "gemini-2.5-pro" ≠ "gemini-2.5-flash" := by
  constructor
  · simp [selectRetryModel]
  · decide

/-- Claim C4 (amended): on attempts after a failure with a fallback available,
the fallback is selected exactly when the primary's wait time is positive
(regardless of the fallback's wait time, including when both models are
blocked); when the primary's wait time is zero — including a both-zero tie —
the primary is kept. -/
theorem C4_retry_selection (primary fallback : String) (waitPrimary waitFallback : ℚ) :
    selectRetryModel primary fallback waitPrimary waitFallback
      = if 0 < waitPrimary then fallback else primary := by
  unfold selectRetryModel
  by_cases h : 0 < waitPrimary
  · simp only [if_pos h]
    split <;> rfl
  · simp only [if_neg h]

/-- Claim C6 (counterexample): for an error that is a `ClientError` parsed as a
quota error, the failure handler runs `_parse_quota_error` (classification of
the quota kind) strictly before the reservation release, so classification does
precede the release, contrary to the claim. -/
theorem C6_counterexample :
    failureHandlerTrace true true false = [FailAction.parseQuota, FailAction.release] ∧
      (failureHandlerTrace true true false).indexOf FailAction.parseQuota
        < (failureHandlerTrace true true false).indexOf FailAction.release := by
  decide

/-- Claim C6 (amended): in the failure path the release is performed
unconditionally for every kind of error, and it precedes both the retryability
classification (`_is_retryable_error`) and the backoff registration; however,
the quota-error parsing (`_parse_quota_error`, run for client errors) precedes
the release rather than following it. -/
theorem C6_release_unconditional_ordering :
    ∀ (isClientError parsesAsQuota hasRetryAfterHint : Bool),
      FailAction.release ∈ failureHandlerTrace isClientError parsesAsQuota hasRetryAfterHint ∧
      (FailAction.checkRetryable ∈
          failureHandlerTrace isClientError parsesAsQuota hasRetryAfterHint →
        (failureHandlerTrace isClientError parsesAsQuota hasRetryAfterHint).indexOf
            FailAction.release
          < (failureHandlerTrace isClientError parsesAsQuota hasRetryAfterHint).indexOf
              FailAction.checkRetryable) ∧
      (FailAction.registerBackoff ∈
          failureHandlerTrace isClientError parsesAsQuota hasRetryAfterHint →
        (failureHandlerTrace isClientError parsesAsQuota hasRetryAfterHint).indexOf
            FailAction.release
          < (failureHandlerTrace isClientError parsesAsQuota hasRetryAfterHint).indexOf
              FailAction.registerBackoff) ∧
      (isClientError = true →
        (failureHandlerTrace isClientError parsesAsQuota hasRetryAfterHint).indexOf
            FailAction.parseQuota
          < (failureHandlerTrace isClientError parsesAsQuota hasRetryAfterHint).indexOf
              FailAction.release) := by
  decide

/-- Claim C8: on the first attempt the primary is used unless a fallback
exists, the primary is blocked, and the fallback is immediately available; in
particular, with `rpm = 1` and the primary already used at instant `0`, a
second call at instant `1` sees `waitTime(primary) > 0`, `waitTime(fallback)
= 0`, and selects the fallback. -/
theorem C8_first_attempt_selection :
    (∀ (primary fb : String) (waitPrimary waitFallback : ℚ),
      selectFirstModel primary (some fb) waitPrimary waitFallback
        = if 0 < waitPrimary ∧ waitFallback = 0 then fb else primary) ∧
    (∀ (primary : String) (waitPrimary waitFallback : ℚ),
      selectFirstModel primary none waitPrimary waitFallback = primary) ∧
    (0 < (getWaitTime (some ⟨1, 0, 0⟩)
        (waitForRequestIter ⟨1, 0, 0⟩ emptyModelState 0 0).1 1 0).1 ∧
      (getWaitTime (some ⟨1, 0, 0⟩) emptyModelState 1 0).1 = 0 ∧
      selectFirstModel "gemini-2.5-pro" (some "gemini-2.5-flash")
          (getWaitTime (some ⟨1, 0, 0⟩)
            (waitForRequestIter ⟨1, 0, 0⟩ emptyModelState 0 0).1 1 0).1
          (getWaitTime (some ⟨1, 0, 0⟩) emptyModelState 1 0).1
        = "gemini-2.5-flash") := by
  refine ⟨?_, ?_, ?_⟩
  · intro primary fb waitPrimary waitFallback
    by_cases h1 : 0 < waitPrimary <;> by_cases h2 : waitFallback = 0 <;>
      simp [selectFirstModel, h1, h2]
  · intro primary waitPrimary waitFallback
    rfl
  · refine ⟨?_, ?_, ?_⟩ <;>
      norm_num [getWaitTime, queryPrune, waitForRequestIter, admitState, pruneRequests,
        pruneWindow, pruneTokens, pruneTokensAux, emptyModelState, computeWaitTime,
        wtAfterRpm, wtAfterRpd, wtAfterTpm, selectFirstModel,
        TOKEN_WINDOW_SECONDS, DAY_WINDOW_SECONDS]

/-- What the source raises once every attempt has failed, as a function of the
outcome of the final attempt: a quota failure on the last attempt raises its
`HTTPException` directly, while a transient failure falls out of the loop and
is wrapped in the 503 `unavailable` error. -/
def exhaustedOutcomeResult : AttemptOutcome → ExecResult
  | .quota i => .raised (.quotaHttp i)
  | .transient e => .unavailable503 (some (.plain e))
  | .success r => .ok r
  | .fatal e => .raised (.plain e)

/-- Claim C5 (counterexample): a quota error on the first attempt followed by
transient errors on the remaining attempts is NOT raised to the caller; the
503 wrapper around the last transient error is raised instead, because
`last_error` is overwritten on every failed attempt. -/
theorem C5_counterexample :
    (attemptGo
        (fun k => if k = 0 then AttemptOutcome.quota 1 else AttemptOutcome.transient k)
        (fun _ => 0) 0 4 none).1
      = ExecResult.unavailable503 (some (RecordedError.plain 3)) ∧
    (attemptGo
        (fun k => if k = 0 then AttemptOutcome.quota 1 else AttemptOutcome.transient k)
        (fun _ => 0) 0 4 none).1
      ≠ ExecResult.raised (RecordedError.quotaHttp 1) := by
  decide

/-- Claim C5 (amended): when all attempts are exhausted without success, the
error raised to the caller is determined by the final attempt alone: a quota
failure on the last attempt raises its `HTTPException`, and a transient
failure raises the 503 wrapper around that last error; a quota error recorded
on an earlier attempt is overwritten by later failures and is not preferred. -/
theorem C5_last_recorded_error_raised (oc : Nat → AttemptOutcome) (u : Nat → ℚ)
    (h : ∀ k, k < MAX_RETRIES →
      (∃ i, oc k = AttemptOutcome.quota i) ∨ (∃ e, oc k = AttemptOutcome.transient e)) :
    (runAttempts oc u).1 = exhaustedOutcomeResult (oc 3) := by
  rcases h 0 (by norm_num [MAX_RETRIES]) with ⟨i0, h0⟩ | ⟨e0, h0⟩ <;>
    rcases h 1 (by norm_num [MAX_RETRIES]) with ⟨i1, h1⟩ | ⟨e1, h1⟩ <;>
    rcases h 2 (by norm_num [MAX_RETRIES]) with ⟨i2, h2⟩ | ⟨e2, h2⟩ <;>
    rcases h 3 (by norm_num [MAX_RETRIES]) with ⟨i3, h3⟩ | ⟨e3, h3⟩ <;>
    simp [runAttempts, attemptGo, MAX_RETRIES, h0, h1, h2, h3, exhaustedOutcomeResult]

/-- Witness for `C5_last_recorded_error_raised`: all four attempts fail with
transient errors, and the 503 wrapper around the last one is raised. -/
theorem C5_last_recorded_error_raised_witness :
    (runAttempts (fun k => AttemptOutcome.transient k) (fun _ => 0)).1
      = exhaustedOutcomeResult (AttemptOutcome.transient 3) :=
  C5_last_recorded_error_raised (fun k => AttemptOutcome.transient k) (fun _ => 0)
    (fun k _ => Or.inr ⟨k, rfl⟩)

theorem calculateRetryDelay_bounds (k : Nat) (u : ℚ)
    (h1 : -JITTER_RANGE ≤ u) (h2 : u ≤ JITTER_RANGE) :
    min (BASE_DELAY * 2 ^ k) MAX_DELAY * (1 - JITTER_RANGE) ≤ calculateRetryDelay k u ∧
      calculateRetryDelay k u ≤ min (BASE_DELAY * 2 ^ k) MAX_DELAY * (1 + JITTER_RANGE) := by
  have hB1 : (1 : ℚ) ≤ min (BASE_DELAY * 2 ^ k) MAX_DELAY := by
    refine le_min ?_ ?_
    · rw [BASE_DELAY, one_mul]
      exact one_le_pow₀ (by norm_num)
    · norm_num [MAX_DELAY]
  set B : ℚ := min (BASE_DELAY * 2 ^ k) MAX_DELAY with hBdef
  have hB0 : (0 : ℚ) ≤ B := le_trans (by norm_num) hB1
  have hJ : JITTER_RANGE = (1 : ℚ) / 10 := rfl
  have hmax : calculateRetryDelay k u = B + u * B := by
    unfold calculateRetryDelay
    rw [← hBdef]
    have : (1 : ℚ) / 10 ≤ B + u * B := by nlinarith [hJ ▸ h1]
    exact max_eq_right this
  rw [hmax]
  constructor
  · nlinarith [hJ ▸ h1]
  · nlinarith [hJ ▸ h2]

/-- Claim C7: with a transient error on every attempt the loop performs exactly
`MAX_RETRIES = 4` attempts; the three inter-attempt sleeps are the exponential
backoff delays for attempt indices 0, 1, 2, they are nondecreasing, and each
lies within the jitter band `[B·(1−jitter), B·(1+jitter)]` around
`B = min(base·2^k, maxDelay)`. -/
theorem C7_transient_retry_schedule (es : Nat → Nat) (u : Nat → ℚ)
    (hu : ∀ k, -JITTER_RANGE ≤ u k ∧ u k ≤ JITTER_RANGE) :
    (runAttempts (fun k => AttemptOutcome.transient (es k)) u).2.1 = MAX_RETRIES ∧
    (runAttempts (fun k => AttemptOutcome.transient (es k)) u).2.2
      = [calculateRetryDelay 0 (u 0), calculateRetryDelay 1 (u 1),
          calculateRetryDelay 2 (u 2)] ∧
    List.Chain' (fun a b => a ≤ b)
      (runAttempts (fun k => AttemptOutcome.transient (es k)) u).2.2 ∧
    (∀ k, k < MAX_RETRIES - 1 →
      min (BASE_DELAY * 2 ^ k) MAX_DELAY * (1 - JITTER_RANGE)
          ≤ calculateRetryDelay k (u k) ∧
        calculateRetryDelay k (u k)
          ≤ min (BASE_DELAY * 2 ^ k) MAX_DELAY * (1 + JITTER_RANGE)) := by
  have hb0 := calculateRetryDelay_bounds 0 (u 0) (hu 0).1 (hu 0).2
  have hb1 := calculateRetryDelay_bounds 1 (u 1) (hu 1).1 (hu 1).2
  have hb2 := calculateRetryDelay_bounds 2 (u 2) (hu 2).1 (hu 2).2
  have hlist : (runAttempts (fun k => AttemptOutcome.transient (es k)) u).2.2
      = [calculateRetryDelay 0 (u 0), calculateRetryDelay 1 (u 1),
          calculateRetryDelay 2 (u 2)] := by
    simp [runAttempts, attemptGo, MAX_RETRIES]
  refine ⟨?_, hlist, ?_, ?_⟩
  · simp [runAttempts, attemptGo, MAX_RETRIES]
  · rw [hlist]
    have hB0 : min (BASE_DELAY * 2 ^ (0 : Nat)) MAX_DELAY = 1 := by
      norm_num [BASE_DELAY, MAX_DELAY]
    have hB1 : min (BASE_DELAY * 2 ^ (1 : Nat)) MAX_DELAY = 2 := by
      norm_num [BASE_DELAY, MAX_DELAY]
    have hB2 : min (BASE_DELAY * 2 ^ (2 : Nat)) MAX_DELAY = 4 := by
      norm_num [BASE_DELAY, MAX_DELAY]
    rw [hB0] at hb0
    rw [hB1] at hb1
    rw [hB2] at hb2
    have hJ : JITTER_RANGE = (1 : ℚ) / 10 := rfl
    rw [hJ] at hb0 hb1 hb2
    refine List.chain'_cons.mpr ⟨?_, List.chain'_cons.mpr ⟨?_, List.chain'_singleton _⟩⟩
    · linarith [hb0.2, hb1.1]
    · linarith [hb1.2, hb2.1]
  · intro k hk
    have hk3 : k < 3 := by simpa [MAX_RETRIES] using hk
    interval_cases k
    · exact hb0
    · exact hb1
    · exact hb2

/-- Witness for `C7_transient_retry_schedule`: zero jitter samples. -/
theorem C7_transient_retry_schedule_witness :
    (runAttempts (fun k => AttemptOutcome.transient k) (fun _ => 0)).2.1 = MAX_RETRIES :=
  (C7_transient_retry_schedule (fun k => k) (fun _ => 0)
    (by intro k; constructor <;> norm_num [JITTER_RANGE])).1

/-- Claim C10: a negative estimate is clamped to zero, so `get_wait_time` and
`wait_for_request` behave exactly as with estimate `0`; and an admitted
`wait_for_request` with estimate `0` leaves the placeholder queue and pending
sum untouched while appending the timestamp to both request windows. -/
theorem C10_negative_estimate_clamped :
    (∀ (lim : Option Limits) (s : ModelState) (now : ℚ) (est : Int), est < 0 →
      getWaitTime lim s now est = getWaitTime lim s now 0 ∧
        waitForRequestStep lim s now est = waitForRequestStep lim s now 0) ∧
    (∀ (l : Limits) (s : ModelState) (now : ℚ),
      (waitForRequestIter l s now 0).2 = true →
      (waitForRequestIter l s now 0).1.placeholder_tokens = s.placeholder_tokens ∧
        (waitForRequestIter l s now 0).1.pending_token_sum = s.pending_token_sum ∧
        (waitForRequestIter l s now 0).1.minute_requests
          = pruneWindow TOKEN_WINDOW_SECONDS now s.minute_requests ++ [now] ∧
        (waitForRequestIter l s now 0).1.day_requests
          = pruneWindow DAY_WINDOW_SECONDS now s.day_requests ++ [now]) := by
  constructor
  · intro lim s now est hest
    have hmax : max 0 est = max 0 (0 : Int) := by omega
    cases lim with
    | none => exact ⟨rfl, rfl⟩
    | some l =>
      constructor
      · simp only [getWaitTime]
        rw [hmax]
      · simp only [waitForRequestStep, waitForRequestIter]
        rw [hmax]
  · intro l s now h
    unfold waitForRequestIter at h ⊢
    split at h
    next hc =>
      rw [if_pos hc]
      norm_num [admitState, pruneTokens, pruneRequests]
    next hc => simp at h

/-- Witness for `C10_negative_estimate_clamped`: estimate `-5` on an unknown
model, and an admitted zero-estimate reservation on an unlimited model. -/
theorem C10_negative_estimate_clamped_witness :
    getWaitTime none emptyModelState 0 (-5) = getWaitTime none emptyModelState 0 0 ∧
      (waitForRequestIter ⟨0, 0, 0⟩ emptyModelState 0 0).1.placeholder_tokens
        = emptyModelState.placeholder_tokens := by
  constructor
  · exact (C10_negative_estimate_clamped.1 none emptyModelState 0 (-5) (by norm_num)).1
  · refine (C10_negative_estimate_clamped.2 ⟨0, 0, 0⟩ emptyModelState 0 ?_).1
    norm_num [waitForRequestIter, admitState, pruneRequests, pruneWindow, pruneTokens,
      pruneTokensAux, emptyModelState, computeWaitTime, wtAfterRpm, wtAfterRpd, wtAfterTpm]

/-! Token accounting invariants. -/

theorem pruneTokensAux_mem (now : ℚ) :
    ∀ (es : List (ℚ × Int)) (sum : Int) (e : ℚ × Int),
      e ∈ (pruneTokensAux now es sum).1 → e ∈ es := by
  intro es
  induction es with
  | nil => intro sum e h; simp [pruneTokensAux] at h
  | cons hd tl ih =>
    intro sum e h
    rw [show pruneTokensAux now (hd :: tl) sum
        = if now - hd.1 ≥ TOKEN_WINDOW_SECONDS then
            pruneTokensAux now tl (max 0 (sum - hd.2))
          else (hd :: tl, sum) from by
      rcases hd with ⟨t, c⟩; rfl] at h
    split at h
    · exact List.mem_cons_of_mem _ (ih _ _ h)
    · exact h

theorem pruneTokensAux_sum_nonneg (now : ℚ) :
    ∀ (es : List (ℚ × Int)) (sum : Int), 0 ≤ sum → 0 ≤ (pruneTokensAux now es sum).2 := by
  intro es
  induction es with
  | nil => intro sum h; simpa [pruneTokensAux] using h
  | cons hd tl ih =>
    intro sum h
    rcases hd with ⟨t, c⟩
    rw [pruneTokensAux]
    split
    · exact ih _ (le_max_left _ _)
    · exact h

theorem pruneTokensAux_sum_le (now : ℚ) :
    ∀ (es : List (ℚ × Int)) (sum : Int), 0 ≤ sum → (∀ e ∈ es, 0 ≤ e.2) →
      (pruneTokensAux now es sum).2 ≤ sum := by
  intro es
  induction es with
  | nil => intro sum h _; simp [pruneTokensAux]
  | cons hd tl ih =>
    intro sum h hpos
    rcases hd with ⟨t, c⟩
    rw [pruneTokensAux]
    split
    · have hc : (0 : Int) ≤ c := hpos (t, c) (List.mem_cons_self _ _)
      have h1 : max 0 (sum - c) ≤ sum := by omega
      exact le_trans
        (ih _ (le_max_left _ _) (fun e he => hpos e (List.mem_cons_of_mem _ he))) h1
    · exact le_rfl

/-- Bookkeeping invariant for claim C9: the committed sum is between `0` and
the configured `tpm`, the pending sum is nonnegative, and all stored counts
are nonnegative. -/
def InvJ (tpm : Nat) (s : ModelState) : Prop :=
  0 ≤ s.token_sum ∧ s.token_sum ≤ (tpm : Int) ∧ 0 ≤ s.pending_token_sum ∧
    (∀ e ∈ s.token_events, 0 ≤ e.2) ∧ (∀ x ∈ s.placeholder_tokens, 0 ≤ x)

theorem InvJ_pruneTokens {tpm : Nat} {s : ModelState} (now : ℚ) (h : InvJ tpm s) :
    InvJ tpm (pruneTokens s now) := by
  obtain ⟨h1, h2, h3, h4, h5⟩ := h
  refine ⟨pruneTokensAux_sum_nonneg now _ _ h1,
    le_trans (pruneTokensAux_sum_le now _ _ h1 h4) h2, h3, ?_, h5⟩
  intro e he
  exact h4 e (pruneTokensAux_mem now _ _ e he)

theorem InvJ_pruneRequests {tpm : Nat} {s : ModelState} (now : ℚ) (h : InvJ tpm s) :
    InvJ tpm (pruneRequests s now) := h

theorem InvJ_admitState {tpm : Nat} {s : ModelState} (now : ℚ) (reserve : Int)
    (hres : 0 ≤ reserve) (h : InvJ tpm s) : InvJ tpm (admitState s now reserve) := by
  obtain ⟨h1, h2, h3, h4, h5⟩ := h
  unfold admitState
  split
  · refine ⟨h1, h2, by dsimp only; omega, h4, ?_⟩
    intro x hx
    dsimp only at hx
    rcases List.mem_append.mp hx with hx | hx
    · exact h5 x hx
    · simp at hx
      omega
  · exact ⟨h1, h2, h3, h4, h5⟩

theorem popPlaceholder_fst_nonneg {tpm : Nat} {s : ModelState} (h : InvJ tpm s) :
    0 ≤ (popPlaceholder s).1 := by
  obtain ⟨_, _, _, _, h5⟩ := h
  unfold popPlaceholder
  cases hq : s.placeholder_tokens with
  | nil => simp
  | cons r rest =>
    simp only []
    exact h5 r (by rw [hq]; exact List.mem_cons_self _ _)

theorem InvJ_popPlaceholder {tpm : Nat} {s : ModelState} (h : InvJ tpm s) :
    InvJ tpm (popPlaceholder s).2 := by
  obtain ⟨h1, h2, h3, h4, h5⟩ := h
  unfold popPlaceholder
  cases hq : s.placeholder_tokens with
  | nil => exact ⟨h1, h2, h3, h4, fun x hx => h5 x hx⟩
  | cons r rest =>
    refine ⟨h1, h2, le_max_left _ _, h4, ?_⟩
    intro x hx
    exact h5 x (by rw [hq]; exact List.mem_cons_of_mem _ hx)

theorem InvJ_reinsertState {tpm : Nat} {s : ModelState} (reserved : Int)
    (hres : 0 ≤ reserved) (h : InvJ tpm s) : InvJ tpm (reinsertState s reserved) := by
  obtain ⟨h1, h2, h3, h4, h5⟩ := h
  unfold reinsertState
  split
  · refine ⟨h1, h2, by dsimp only; omega, h4, ?_⟩
    intro x hx
    dsimp only at hx
    rcases List.mem_cons.mp hx with hx | hx
    · omega
    · exact h5 x hx
  · exact ⟨h1, h2, h3, h4, h5⟩

theorem InvJ_commitState {tpm : Nat} {s : ModelState} (now : ℚ) (tokens : Int)
    (htok : 0 ≤ tokens) (hfit : s.token_sum + tokens ≤ (tpm : Int)) (h : InvJ tpm s) :
    InvJ tpm (commitState s now tokens) := by
  obtain ⟨h1, h2, h3, h4, h5⟩ := h
  unfold commitState
  split
  · refine ⟨by dsimp only; omega, by dsimp only; omega, h3, ?_, h5⟩
    intro e he
    dsimp only at he
    rcases List.mem_append.mp he with he | he
    · exact h4 e he
    · simp at he
      subst he
      exact htok
  · exact ⟨h1, h2, h3, h4, h5⟩

theorem InvJ_applyOp {s : ModelState} (l : Limits) (htpm : l.tpm ≠ 0)
    (h : InvJ l.tpm s) (op : TrackerOp) : InvJ l.tpm (applyOp l s op).1 := by
  cases op with
  | reserve now est =>
    show InvJ l.tpm (waitForRequestIter l s now est).1
    unfold waitForRequestIter
    split
    · exact InvJ_admitState now _ (le_max_left _ _)
        (InvJ_pruneTokens now (InvJ_pruneRequests now h))
    · exact InvJ_pruneTokens now (InvJ_pruneRequests now h)
  | usage now tok =>
    show InvJ l.tpm (recordUsageIter l s now tok).1
    unfold recordUsageIter
    split
    next hc =>
      exact InvJ_reinsertState _ (popPlaceholder_fst_nonneg (InvJ_pruneTokens now h))
        (InvJ_popPlaceholder (InvJ_pruneTokens now h))
    next hc =>
      have hinv := InvJ_popPlaceholder (InvJ_pruneTokens (s := s) now h)
      refine InvJ_commitState now _ (le_max_left _ _) ?_ hinv
      rw [not_and_or] at hc
      rcases hc with hc | hc
      · exact absurd htpm (by simpa using hc)
      · omega
  | query now est =>
    show InvJ l.tpm (queryPrune l s now)
    unfold queryPrune
    by_cases hq : l.tpm ≠ 0
    · rw [if_pos hq]
      exact InvJ_pruneTokens now (InvJ_pruneRequests now h)
    · rw [if_neg hq]
      exact InvJ_pruneRequests now h

theorem popPlaceholder_events (s : ModelState) :
    (popPlaceholder s).2.token_events = s.token_events := by
  unfold popPlaceholder
  cases s.placeholder_tokens <;> rfl

theorem popPlaceholder_token_sum (s : ModelState) :
    (popPlaceholder s).2.token_sum = s.token_sum := by
  unfold popPlaceholder
  cases s.placeholder_tokens <;> rfl

theorem reinsertState_events (s : ModelState) (reserved : Int) :
    (reinsertState s reserved).token_events = s.token_events := by
  unfold reinsertState
  split <;> rfl

theorem recordUsageIter_commit_le (l : Limits) (htpm : l.tpm ≠ 0) (s : ModelState)
    (now : ℚ) (tok : Int)
    (h : (recordUsageIter l s now tok).1.token_events ≠ (pruneTokens s now).token_events) :
    (recordUsageIter l s now tok).1.token_sum ≤ (l.tpm : Int) := by
  unfold recordUsageIter at h ⊢
  split at h
  next hc =>
    exfalso
    apply h
    dsimp only
    rw [reinsertState_events, popPlaceholder_events]
  next hc =>
    dsimp only at h ⊢
    rw [if_neg hc]
    dsimp only
    rw [not_and_or] at hc
    rcases hc with hbad | hfit
    · exact absurd htpm (by simpa using hbad)
    · rw [popPlaceholder_token_sum] at hfit
      unfold commitState
      split
      · dsimp only
        rw [popPlaceholder_token_sum]
        omega
      · rw [popPlaceholder_token_sum]
        omega

theorem runOps_InvJ (l : Limits) (htpm : l.tpm ≠ 0) :
    ∀ (ops : List TrackerOp) (s : ModelState), InvJ l.tpm s → InvJ l.tpm (runOps l s ops) := by
  intro ops
  induction ops with
  | nil => intro s h; exact h
  | cons op ops ih =>
    intro s h
    exact ih _ (InvJ_applyOp l htpm h op)

/-- Claim C9: for a model with a configured (nonzero) tokens-per-minute limit,
after any sequence of tracker operations run from the fresh state the
committed token sum stays within `[0, tpm]` and the pending sum stays
nonnegative; moreover a `record_usage` iteration appends a token event only
when the resulting committed sum does not exceed `tpm`. -/
theorem C9_token_sums_bounded (l : Limits) (ops : List TrackerOp) (htpm : l.tpm ≠ 0) :
    (0 ≤ (runOps l emptyModelState ops).token_sum ∧
      (runOps l emptyModelState ops).token_sum ≤ (l.tpm : Int) ∧
      0 ≤ (runOps l emptyModelState ops).pending_token_sum) ∧
    (∀ (s : ModelState) (now : ℚ) (tok : Int),
      (recordUsageIter l s now tok).1.token_events ≠ (pruneTokens s now).token_events →
      (recordUsageIter l s now tok).1.token_sum ≤ (l.tpm : Int)) := by
  constructor
  · have h := runOps_InvJ l htpm ops emptyModelState
      (by refine ⟨le_rfl, ?_, le_rfl, ?_, ?_⟩ <;> simp [emptyModelState])
    exact ⟨h.1, h.2.1, h.2.2.1⟩
  · intro s now tok h
    exact recordUsageIter_commit_le l htpm s now tok h

/-- Witness for `C9_token_sums_bounded`: a reserve-then-commit pair under a
`tpm = 100` limit. -/
theorem C9_token_sums_bounded_witness :
    0 ≤ (runOps ⟨0, 0, 100⟩ emptyModelState
        [TrackerOp.reserve 0 10, TrackerOp.usage 0 10]).token_sum :=
  ((C9_token_sums_bounded ⟨0, 0, 100⟩ [TrackerOp.reserve 0 10, TrackerOp.usage 0 10]
    (by decide)).1).1

/-- Witness for `C6_release_unconditional_ordering`: a hinted quota client
error. -/
theorem C6_release_unconditional_ordering_witness :
    FailAction.release ∈ failureHandlerTrace true true true ∧
      (failureHandlerTrace true true true).indexOf FailAction.parseQuota
        < (failureHandlerTrace true true true).indexOf FailAction.release :=
  ⟨(C6_release_unconditional_ordering true true true).1,
    (C6_release_unconditional_ordering true true true).2.2.2 rfl⟩

/-! Machinery for claim C2: exact token accounting over operation sequences. -/

/-- Token events still inside the 60-second sliding window at instant `T`. -/
def liveAt (T : ℚ) (es : List (ℚ × Int)) : List (ℚ × Int) :=
  es.filter (fun e => decide (T - e.1 < TOKEN_WINDOW_SECONDS))

theorem sumCounts_nonneg (es : List (ℚ × Int)) (h : ∀ e ∈ es, 0 ≤ e.2) :
    0 ≤ sumCounts es := by
  unfold sumCounts
  refine List.sum_nonneg ?_
  intro x hx
  obtain ⟨e, he, rfl⟩ := List.mem_map.mp hx
  exact h e he

theorem sumCounts_append (es fs : List (ℚ × Int)) :
    sumCounts (es ++ fs) = sumCounts es + sumCounts fs := by
  simp [sumCounts]

theorem liveAt_append (T : ℚ) (es fs : List (ℚ × Int)) :
    liveAt T (es ++ fs) = liveAt T es ++ liveAt T fs := by
  simp [liveAt, List.filter_append]

theorem liveAt_eq_self (T : ℚ) (es : List (ℚ × Int))
    (h : ∀ e ∈ es, T - e.1 < TOKEN_WINDOW_SECONDS) : liveAt T es = es := by
  unfold liveAt
  refine List.filter_eq_self.mpr ?_
  intro e he
  exact decide_eq_true (h e he)

theorem liveAt_idem {T1 T2 : ℚ} (h : T1 ≤ T2) (es : List (ℚ × Int)) :
    liveAt T2 (liveAt T1 es) = liveAt T2 es := by
  unfold liveAt
  rw [List.filter_filter]
  refine List.filter_congr ?_
  intro e _
  by_cases h2 : T2 - e.1 < TOKEN_WINDOW_SECONDS
  · have h1 : T1 - e.1 < TOKEN_WINDOW_SECONDS := by linarith
    simp [h1, h2]
  · simp [h2]

theorem pruneTokensAux_sum_exact (now : ℚ) :
    ∀ (es : List (ℚ × Int)) (sum : Int), (∀ e ∈ es, 0 ≤ e.2) → sum = sumCounts es →
      (pruneTokensAux now es sum).2 = sumCounts (pruneTokensAux now es sum).1 := by
  intro es
  induction es with
  | nil =>
    intro sum _ hsum
    simpa [pruneTokensAux, sumCounts] using hsum
  | cons hd tl ih =>
    intro sum hpos hsum
    rcases hd with ⟨t, c⟩
    rw [pruneTokensAux]
    split
    · have h1 : 0 ≤ sumCounts tl :=
        sumCounts_nonneg tl (fun e he => hpos e (List.mem_cons_of_mem _ he))

      have h2 : sum = c + sumCounts tl := by
        rw [hsum]
        simp [sumCounts]
      have h3 : max 0 (sum - c) = sumCounts tl := by omega
      rw [h3]
      exact ih _ (fun e he => hpos e (List.mem_cons_of_mem _ he)) rfl
    · exact hsum

theorem pruneTokensAux_sorted (now : ℚ) :
    ∀ (es : List (ℚ × Int)) (sum : Int),
      List.Pairwise (fun a b : ℚ × Int => a.1 ≤ b.1) es →
      (pruneTokensAux now es sum).1 = liveAt now es := by
  intro es
  induction es with
  | nil => intro sum _; simp [pruneTokensAux, liveAt]
  | cons hd tl ih =>
    intro sum hsort
    rcases hd with ⟨t, c⟩
    obtain ⟨hhead, htail⟩ := List.pairwise_cons.mp hsort
    rw [pruneTokensAux]
    split
    next hexp =>
      rw [ih _ htail]
      unfold liveAt
      rw [List.filter_cons]
      rw [if_neg (by simpa using not_lt.mpr (by linarith : TOKEN_WINDOW_SECONDS ≤ now - t))]
    next hkeep =>
      symm
      apply liveAt_eq_self
      intro e he
      rcases List.mem_cons.mp he with rfl | he
      · exact lt_of_not_ge hkeep
      · have := hhead e he
        have : now - e.1 ≤ now - t := by
          dsimp only at this ⊢
          linarith
        exact lt_of_le_of_lt this (lt_of_not_ge hkeep)

/-- Inductive invariant for claim C2 at instant `T`: all stored token events
are nonnegative, time-ordered, and live at `T`; the cached sums match their
collections. -/
def InvC2 (s : ModelState) (T : ℚ) : Prop :=
  (∀ e ∈ s.token_events, 0 ≤ e.2 ∧ e.1 ≤ T ∧ T - e.1 < TOKEN_WINDOW_SECONDS) ∧
    List.Pairwise (fun a b : ℚ × Int => a.1 ≤ b.1) s.token_events ∧
    s.token_sum = sumCounts s.token_events ∧
    (∀ x ∈ s.placeholder_tokens, 0 ≤ x) ∧
    s.pending_token_sum = s.placeholder_tokens.sum

theorem InvC2_pruneTokens {s : ModelState} {T : ℚ} (now : ℚ) (h : InvC2 s T)
    (hT : T ≤ now) :
    InvC2 (pruneTokens s now) now ∧
      (pruneTokens s now).token_events = liveAt now s.token_events := by
  obtain ⟨hlive, hsort, hsum, hq, hp⟩ := h
  have hpos : ∀ e ∈ s.token_events, 0 ≤ e.2 := fun e he => (hlive e he).1
  have hev : (pruneTokens s now).token_events = liveAt now s.token_events :=
    pruneTokensAux_sorted now s.token_events s.token_sum hsort
  have hsm : (pruneTokens s now).token_sum
      = sumCounts (pruneTokens s now).token_events :=
    pruneTokensAux_sum_exact now s.token_events s.token_sum hpos hsum
  refine ⟨⟨?_, ?_, hsm, hq, hp⟩, hev⟩
  · intro e hmem
    rw [hev] at hmem
    have hin : e ∈ s.token_events := List.mem_of_mem_filter hmem
    have hdec := (List.mem_filter.mp hmem).2
    exact ⟨(hlive e hin).1, le_trans (hlive e hin).2.1 hT, of_decide_eq_true hdec⟩
  · rw [hev]
    exact hsort.sublist (List.filter_sublist _)

theorem admitState_placeholder (s : ModelState) (now : ℚ) (reserve : Int) :
    (admitState s now reserve).placeholder_tokens
      = if reserve ≠ 0 then s.placeholder_tokens ++ [reserve]
        else s.placeholder_tokens := by
  unfold admitState
  split <;> rfl

theorem admitState_events (s : ModelState) (now : ℚ) (reserve : Int) :
    (admitState s now reserve).token_events = s.token_events := by
  unfold admitState
  split <;> rfl

theorem InvC2_admitState {s : ModelState} {T : ℚ} (now : ℚ) (reserve : Int)
    (hres : 0 ≤ reserve) (h : InvC2 s T) : InvC2 (admitState s now reserve) T := by
  obtain ⟨h1, h2, h3, h4, h5⟩ := h
  unfold admitState
  split
  · refine ⟨h1, h2, h3, ?_, ?_⟩
    · intro x hx
      dsimp only at hx
      rcases List.mem_append.mp hx with hx | hx
      · exact h4 x hx
      · simp at hx
        omega
    · dsimp only
      rw [h5, List.sum_append]
      simp
  · exact ⟨h1, h2, h3, h4, h5⟩

theorem InvC2_popPlaceholder {s : ModelState} {T : ℚ} (h : InvC2 s T) :
    InvC2 (popPlaceholder s).2 T ∧
      (popPlaceholder s).2.placeholder_tokens = s.placeholder_tokens.tail ∧
      (popPlaceholder s).2.token_events = s.token_events ∧
      (popPlaceholder s).2.token_sum = s.token_sum := by
  obtain ⟨h1, h2, h3, h4, h5⟩ := h
  unfold popPlaceholder
  cases hq : s.placeholder_tokens with
  | nil =>
    refine ⟨⟨h1, h2, h3, ?_, ?_⟩, by rw [hq]; rfl, rfl, rfl⟩
    · intro x hx
      exact h4 x hx
    · exact h5
  | cons r rest =>
    have hrest : ∀ x ∈ rest, (0 : Int) ≤ x := fun x hx =>
      h4 x (by rw [hq]; exact List.mem_cons_of_mem _ hx)
    have hsum : s.pending_token_sum = r + rest.sum := by
      rw [h5, hq, List.sum_cons]
    have hnn : (0 : Int) ≤ rest.sum := List.sum_nonneg hrest
    refine ⟨⟨h1, h2, h3, hrest, ?_⟩, rfl, rfl, rfl⟩
    dsimp only
    omega

theorem InvC2_commitState {s : ModelState} {now : ℚ} (tokens : Int)
    (htok : 0 ≤ tokens) (h : InvC2 s now) :
    InvC2 (commitState s now tokens) now ∧
      (commitState s now tokens).token_events
        = s.token_events ++ (if tokens ≠ 0 then [(now, tokens)] else []) ∧
      (commitState s now tokens).placeholder_tokens = s.placeholder_tokens := by
  obtain ⟨h1, h2, h3, h4, h5⟩ := h
  unfold commitState
  split
  next hc =>
    refine ⟨⟨?_, ?_, ?_, h4, h5⟩, rfl, rfl⟩
    · intro e he
      dsimp only at he
      rcases List.mem_append.mp he with he | he
      · exact h1 e he
      · simp at he
        subst he
        refine ⟨htok, le_rfl, ?_⟩
        norm_num [TOKEN_WINDOW_SECONDS]
    · dsimp only
      refine List.pairwise_append.mpr ⟨h2, List.pairwise_singleton _ _, ?_⟩
      intro a ha b hb
      simp at hb
      subst hb
      exact (h1 a ha).2.1
    · dsimp only
      rw [h3, sumCounts_append]
      simp [sumCounts]
  next hc =>
    refine ⟨⟨h1, h2, h3, h4, h5⟩, ?_, rfl⟩
    rw [List.append_nil]

theorem reserve_step (l : Limits) (s : ModelState) (T now : ℚ) (est : Int)
    (h : InvC2 s T) (hT : T ≤ now)
    (hadm : (waitForRequestIter l s now est).2 = true) :
    InvC2 (waitForRequestIter l s now est).1 now ∧
      (waitForRequestIter l s now est).1.token_events = liveAt now s.token_events ∧
      (waitForRequestIter l s now est).1.placeholder_tokens
        = stepQueue s.placeholder_tokens (TrackerOp.reserve now est) := by
  have hpr : InvC2 (pruneRequests s now) T := h
  obtain ⟨hinv1, hev⟩ := InvC2_pruneTokens now hpr hT
  unfold waitForRequestIter at hadm ⊢
  split at hadm
  next hc =>
    rw [if_pos hc]
    dsimp only
    refine ⟨InvC2_admitState now _ (le_max_left _ _) hinv1, ?_, ?_⟩
    · rw [admitState_events]
      exact hev
    · rw [admitState_placeholder]
      rfl
  next hc =>
    dsimp only at hadm
    exact absurd hadm (by simp)

theorem usage_step (l : Limits) (s : ModelState) (T now : ℚ) (tok : Int)
    (h : InvC2 s T) (hT : T ≤ now)
    (hadm : (recordUsageIter l s now tok).2 = true) :
    InvC2 (recordUsageIter l s now tok).1 now ∧
      (recordUsageIter l s now tok).1.token_events
        = liveAt now s.token_events
            ++ (if 0 < max 0 tok then [(now, max 0 tok)] else []) ∧
      (recordUsageIter l s now tok).1.placeholder_tokens = s.placeholder_tokens.tail := by
  obtain ⟨hinv1, hev⟩ := InvC2_pruneTokens now h hT
  have hpop := InvC2_popPlaceholder hinv1
  have hcom := InvC2_commitState (s := (popPlaceholder (pruneTokens s now)).2)
    (max 0 tok) (le_max_left _ _) hpop.1
  unfold recordUsageIter at hadm ⊢
  split at hadm
  next hc =>
    dsimp only at hadm
    exact absurd hadm (by simp)
  next hc =>
    rw [if_neg hc]
    dsimp only
    refine ⟨hcom.1, ?_, ?_⟩
    · rw [hcom.2.1, hpop.2.2.1, hev]
      congr 1
      by_cases ht : max 0 tok ≠ 0
      · rw [if_pos ht, if_pos (by omega)]
      · rw [if_neg ht, if_neg (by omega)]
    · rw [hcom.2.2, hpop.2.1, pruneTokens_placeholder]

theorem chain_le_getLastD :
    ∀ (ts : List ℚ) (d : ℚ), List.Chain' (fun a b : ℚ => a ≤ b) (d :: ts) →
      d ≤ ts.getLastD d := by
  intro ts
  induction ts with
  | nil => intro d _; exact le_rfl
  | cons t ts ih =>
    intro d h
    rw [List.getLastD_cons]
    obtain ⟨hdt, h2⟩ := List.chain'_cons.mp h
    exact le_trans hdt (ih t h2)

theorem runOps_char (l : Limits) :
    ∀ (ops : List TrackerOp) (s : ModelState) (T : ℚ),
      InvC2 s T →
      List.Chain' (fun a b : ℚ => a ≤ b) (T :: ops.map opTime) →
      completes l s ops = true →
      noQuery ops →
      InvC2 (runOps l s ops) (lastTime T ops) ∧
        (runOps l s ops).token_events
          = liveAt (lastTime T ops) (s.token_events ++ specCommits ops) ∧
        (runOps l s ops).placeholder_tokens = ops.foldl stepQueue s.placeholder_tokens := by
  intro ops
  induction ops with
  | nil =>
    intro s T hinv _ _ _
    refine ⟨hinv, ?_, rfl⟩
    rw [show specCommits [] = [] from rfl, List.append_nil]
    exact (liveAt_eq_self T s.token_events (fun e he => (hinv.1 e he).2.2)).symm
  | cons op ops ih =>
    intro s T hinv hchain hcomp hnq
    rw [List.map_cons] at hchain
    obtain ⟨hTn, hchain2⟩ := List.chain'_cons.mp hchain
    rw [show completes l s (op :: ops)
        = ((applyOp l s op).2 && completes l (applyOp l s op).1 ops) from rfl,
      Bool.and_eq_true] at hcomp
    obtain ⟨hadm, hcomp2⟩ := hcomp
    have hnq2 : noQuery ops := fun o ho => hnq o (List.mem_cons_of_mem _ ho)
    cases op with
    | reserve now est =>
      have hstep := reserve_step l s T now est hinv hTn hadm
      have hih := ih (waitForRequestIter l s now est).1 now hstep.1 hchain2 hcomp2 hnq2
      have hlast : lastTime T (TrackerOp.reserve now est :: ops) = lastTime now ops := by
        unfold lastTime
        rw [List.map_cons, List.getLastD_cons]
        rfl
      have hle : now ≤ lastTime now ops := chain_le_getLastD (ops.map opTime) now hchain2
      have hrun : runOps l s (TrackerOp.reserve now est :: ops)
          = runOps l (waitForRequestIter l s now est).1 ops := rfl
      refine ⟨?_, ?_, ?_⟩
      · rw [hlast, hrun]
        exact hih.1
      · rw [hlast, hrun, hih.2.1, hstep.2.1,
          show specCommits (TrackerOp.reserve now est :: ops) = specCommits ops from rfl,
          liveAt_append, liveAt_append, liveAt_idem hle]
      · rw [hrun, hih.2.2, hstep.2.2]
        rfl
    | usage now tok =>
      have hstep := usage_step l s T now tok hinv hTn hadm
      have hih := ih (recordUsageIter l s now tok).1 now hstep.1 hchain2 hcomp2 hnq2
      have hlast : lastTime T (TrackerOp.usage now tok :: ops) = lastTime now ops := by
        unfold lastTime
        rw [List.map_cons, List.getLastD_cons]
        rfl
      have hle : now ≤ lastTime now ops := chain_le_getLastD (ops.map opTime) now hchain2
      have hrun : runOps l s (TrackerOp.usage now tok :: ops)
          = runOps l (recordUsageIter l s now tok).1 ops := rfl
      have hsc : specCommits (TrackerOp.usage now tok :: ops)
          = if 0 < max 0 tok then (now, max 0 tok) :: specCommits ops
            else specCommits ops := rfl
      have hcomm : (if 0 < max 0 tok then [((now : ℚ), max 0 tok)] else [])
          ++ specCommits ops = specCommits (TrackerOp.usage now tok :: ops) := by
        rw [hsc]
        by_cases ht : 0 < max 0 tok
        · rw [if_pos ht, if_pos ht]
          rfl
        · rw [if_neg ht, if_neg ht]
          rfl
      refine ⟨?_, ?_, ?_⟩
      · rw [hlast, hrun]
        exact hih.1
      · rw [hlast, hrun, hih.2.1, hstep.2.1, ← hcomm, List.append_assoc]
        simp only [liveAt_append, List.append_assoc]
        rw [liveAt_idem hle]
      · rw [hrun, hih.2.2, hstep.2.2]
        rfl
    | query now est =>
      exact absurd (hnq _ (List.mem_cons_self _ _)) (by simp [isQuery])

/-- Timestamp of the first operation (default `0` for the empty sequence). -/
def firstTime (ops : List TrackerOp) : ℚ := (ops.map opTime).headD 0

/-- Claim C2: over any time-monotone sequence of reserve / commit / release
operations on one model in which every operation completes, the final
`token_sum + pending_token_sum` equals the sum of the committed token amounts
still inside the 60-second window at the final instant plus the sum of the
reservations still outstanding; and a pruning pass removes budget exactly:
whenever `token_sum` equals the sum of the stored event counts (all
nonnegative), it still equals the sum of the remaining counts after pruning,
i.e. each removed entry decremented it by exactly that entry's count. -/
theorem C2_token_accounting :
    (∀ (l : Limits) (ops : List TrackerOp),
      timesMono ops → noQuery ops → completes l emptyModelState ops = true →
      (runOps l emptyModelState ops).token_sum
          + (runOps l emptyModelState ops).pending_token_sum
        = sumCounts (liveAt (lastTime (firstTime ops) ops) (specCommits ops))
          + (specOutstanding ops).sum) ∧
    (∀ (s : ModelState) (now : ℚ),
      (∀ e ∈ s.token_events, 0 ≤ e.2) →
      s.token_sum = sumCounts s.token_events →
      (pruneTokens s now).token_sum = sumCounts (pruneTokens s now).token_events) := by
  constructor
  · intro l ops hmono hnq hcomp
    have hinv0 : InvC2 emptyModelState (firstTime ops) := by
      refine ⟨?_, ?_, ?_, ?_, ?_⟩ <;> simp [emptyModelState, sumCounts]
    have hchain : List.Chain' (fun a b : ℚ => a ≤ b)
        (firstTime ops :: ops.map opTime) := by
      unfold timesMono at hmono
      unfold firstTime
      cases hm : ops.map opTime with
      | nil => simp
      | cons t ts =>
        rw [hm] at hmono
        rw [List.headD_cons]
        exact List.chain'_cons.mpr ⟨le_rfl, hmono⟩
    obtain ⟨⟨_, _, hsum, _, hpend⟩, hev, hph⟩ :=
      runOps_char l ops emptyModelState (firstTime ops) hinv0 hchain hcomp hnq
    rw [hsum, hpend, hev, hph,
      show emptyModelState.token_events ++ specCommits ops = specCommits ops from
        List.nil_append _]
    rfl
  · intro s now hpos hsum
    exact pruneTokensAux_sum_exact now s.token_events s.token_sum hpos hsum

/-- Witness for `C2_token_accounting`: an admitted reservation of 5 tokens
followed by its 5-token commit on an unlimited model. -/
theorem C2_token_accounting_witness :
    ((runOps ⟨0, 0, 0⟩ emptyModelState
          [TrackerOp.reserve 0 5, TrackerOp.usage 0 5]).token_sum
        + (runOps ⟨0, 0, 0⟩ emptyModelState
          [TrackerOp.reserve 0 5, TrackerOp.usage 0 5]).pending_token_sum
      = sumCounts (liveAt
            (lastTime (firstTime [TrackerOp.reserve 0 5, TrackerOp.usage 0 5])
              [TrackerOp.reserve 0 5, TrackerOp.usage 0 5])
            (specCommits [TrackerOp.reserve 0 5, TrackerOp.usage 0 5]))
        + (specOutstanding [TrackerOp.reserve 0 5, TrackerOp.usage 0 5]).sum) ∧
      (pruneTokens emptyModelState 0).token_sum
        = sumCounts (pruneTokens emptyModelState 0).token_events := by
  constructor
  · refine C2_token_accounting.1 ⟨0, 0, 0⟩ [TrackerOp.reserve 0 5, TrackerOp.usage 0 5]
      ?_ ?_ ?_
    · unfold timesMono
      simp [opTime]
    · intro op hop
      rcases List.mem_cons.mp hop with rfl | hop
      · rfl
      · rcases List.mem_cons.mp hop with rfl | hop
        · rfl
        · simp at hop
    · decide
  · exact C2_token_accounting.2 emptyModelState 0 (by simp [emptyModelState])
      (by simp [emptyModelState, sumCounts])

end Catalyst
